import Mathlib

/-!
Verification development for the passivbot trading engine.

Python floats are modelled as exact rationals (`ℚ`); `numpy.round(x, d)`
is modelled as rounding to the nearest multiple of `10^-d` with ties to
even, which is numpy's rounding mode.  Fallible code is modelled with
`Except`.  Functions of the repository that are only imported (their
defining module is not part of the source tree) are modelled from the
specification text and carry a doc comment starting with
`Modelled from the spec:`.
-/

namespace Passivbot

/-- Round a rational to the nearest integer, ties to even
(numpy's rounding mode, used by `np.round`). -/
def roundHalfEven (y : ℚ) : ℤ :=
  if y - (⌊y⌋ : ℚ) < 1/2 then ⌊y⌋
  else if 1/2 < y - (⌊y⌋ : ℚ) then ⌊y⌋ + 1
  else if ⌊y⌋ % 2 = 0 then ⌊y⌋ else ⌊y⌋ + 1

/-- Numpy's `np.round(y, d)`: round to `d` decimal places, ties to even. -/
def npRound (y : ℚ) (d : ℕ) : ℚ :=
  (roundHalfEven (y * 10 ^ d) : ℚ) / 10 ^ d

end Passivbot

namespace Jitted

/-- Source `jitted.round_up`: `np.round(np.ceil(n / step) * step, 10)`. -/
def round_up (n step : ℚ) : ℚ :=
  Passivbot.npRound ((⌈n / step⌉ : ℚ) * step) 10

/-- Source `jitted.round_dn`: `np.round(np.floor(n / step) * step, 10)`. -/
def round_dn (n step : ℚ) : ℚ :=
  Passivbot.npRound ((⌊n / step⌋ : ℚ) * step) 10

/-- Source `jitted.round_`: `np.round(np.round(n / step) * step, 10)`. -/
def round_ (n step : ℚ) : ℚ :=
  Passivbot.npRound ((Passivbot.roundHalfEven (n / step) : ℚ) * step) 10

/-- Source `jitted.calc_diff`: `abs(x - y) / abs(y)`. -/
def calc_diff (x y : ℚ) : ℚ := |x - y| / |y|

/-- Source `jitted.calc_min_entry_qty` (linear and inverse branch, as written in
the source: the rounding step is `xk[1]`, the price step, and the linear
branch divides the min cost by the price only). -/
def calc_min_entry_qty (qty_step price_step min_qty min_cost c_mult : ℚ)
    (inverse : Bool) (price : ℚ) : ℚ :=
  max min_qty (round_up (min_cost * (if inverse then price / c_mult else 1 / price)) price_step)

end Jitted

namespace Passivbot

/-- A step that is an exact multiple of `10 ^ (-10)`, so that the
`np.round(·, 10)` safety rounding in `jitted.round_up`/`round_dn`/`round_`
is the identity on its result. -/
def StepExact (step : ℚ) : Prop := ∃ j : ℤ, step = (j : ℚ) / 10 ^ 10

/-- The minimum entry quantity as the specification words it:
`max(min_qty, ceil_to(qty_step, min_notional / (price·mult)))` (linear
form).  Stated only to be compared against `Jitted.calc_min_entry_qty`. -/
def spec_min_entry_qty (qty_step min_qty min_notional price mult : ℚ) : ℚ :=
  max min_qty ((⌈(min_notional / (price * mult)) / qty_step⌉ : ℚ) * qty_step)

/-- Does the list start with the given pattern. -/
def startsWithList : List Char → List Char → Bool
  | _, [] => true
  | [], _ :: _ => false
  | a :: as, b :: bs => a == b && startsWithList as bs

/-- Does the list contain the given pattern as a contiguous sublist. -/
def hasSubList : List Char → List Char → Bool
  | [], sub => sub.isEmpty
  | a :: t, sub => startsWithList (a :: t) sub || hasSubList t sub

/-- Python's substring test `sub in s`. -/
def strIn (sub s : String) : Bool := hasSubList s.toList sub.toList

/-- Python dict lookup on an association list (dict keys are unique;
lookup returns the entry for the key, `none` when absent). -/
def alookup {β : Type} : List (String × β) → String → Option β
  | [], _ => none
  | (k, v) :: t, s => if k = s then some v else alookup t s

structure Ticker where
  bid : ℚ
  ask : ℚ
  last : ℚ
  deriving DecidableEq

/-- The per-side fields of a live config used by the unstuck module and
the reconciler. -/
structure SideCfg where
  wallet_exposure_limit : ℚ
  unstuck_threshold : ℚ
  unstuck_ema_dist : ℚ
  unstuck_close_pct : ℚ
  mode : String
  deriving DecidableEq

structure Cfg where
  long : SideCfg
  short : SideCfg
  deriving DecidableEq

/-- Access `live_configs[symbol][pside]`. -/
def Cfg.side (c : Cfg) (pside : String) : SideCfg :=
  if pside = "long" then c.long else c.short

structure Pos where
  size : ℚ
  price : ℚ
  deriving DecidableEq

structure PosPair where
  long : Pos
  short : Pos
  deriving DecidableEq

/-- Access `positions[symbol][pside]`. -/
def PosPair.side (p : PosPair) (pside : String) : Pos :=
  if pside = "long" then p.long else p.short

/-- The EMA triple `emas[pside][symbol]` (three EMAs per symbol × side). -/
structure EmaTriple where
  e0 : ℚ
  e1 : ℚ
  e2 : ℚ
  deriving DecidableEq

/-- Access `self.emas[pside][symbol].max()`. -/
def EmaTriple.maxv (e : EmaTriple) : ℚ := max e.e0 (max e.e1 e.e2)

/-- Access `self.emas[pside][symbol].min()`. -/
def EmaTriple.minv (e : EmaTriple) : ℚ := min e.e0 (min e.e1 e.e2)

/-- An open order as fetched from the exchange
(`self.open_orders[symbol]` entries). -/
structure RawOrder where
  symbol : String
  side : String
  position_side : String
  qty : ℚ
  price : ℚ
  order_id : String
  deriving DecidableEq

/-- An ideal-order tuple `(qty, price, order_type)` as produced by
`calc_ideal_orders` before conversion to dicts; index 2 of the tuple is
used as the custom id. -/
structure OrderTuple where
  qty : ℚ
  price : ℚ
  custom_id : String
  deriving DecidableEq

/-- The bot state read by `calc_unstucking_close` and
`calc_orders_to_cancel_and_create`.  Per-symbol tables that the source
stores as dicts guaranteed to contain the accessed keys are modelled as
total functions; `positions` and `open_orders` are association lists
(iteration order matters). -/
structure BotState where
  balance : ℚ
  active_symbols : List String
  positions : List (String × PosPair)
  open_orders : List (String × List RawOrder)
  tickers : String → Ticker
  live_configs : String → Cfg
  qty_steps : String → ℚ
  price_steps : String → ℚ
  min_qtys : String → ℚ
  min_costs : String → ℚ
  c_mults : String → ℚ
  emas : String → String → EmaTriple

/-- Access `self.positions[symbol]`, defaulting to a flat position. -/
def posOf (st : BotState) (symbol : String) : PosPair :=
  (alookup st.positions symbol).getD ⟨⟨0, 0⟩, ⟨0, 0⟩⟩

/-- Source `Passivbot.has_position`. -/
def has_position (st : BotState) (symbol pside : String) : Bool :=
  match alookup st.positions symbol with
  | some pp => (pp.side pside).size != 0
  | none => false

/-- Modelled from the spec: `passivbot_rust.round_up` is not in the
source tree; "snap x to a multiple of step", upward. -/
def pbr_round_up (n step : ℚ) : ℚ := (⌈n / step⌉ : ℚ) * step

/-- Modelled from the spec: `passivbot_rust.round_dn` is not in the
source tree; "snap x to a multiple of step", downward. -/
def pbr_round_dn (n step : ℚ) : ℚ := (⌊n / step⌋ : ℚ) * step

/-- Modelled from the spec: `passivbot_rust.cost_to_qty` is not in the
source tree; the inverse of `qty_to_cost` at a given price, linear form
`cost / (price·mult)`. -/
def pbr_cost_to_qty (cost price c_mult : ℚ) : ℚ := cost / (price * c_mult)

/-- Modelled from the spec: `passivbot_rust.calc_wallet_exposure` is not
in the source tree; `wallet_exposure = qty_to_cost(size, price, …) /
balance` with linear `qty_to_cost = |qty|·mult·price`. -/
def pbr_calc_wallet_exposure (c_mult balance size price : ℚ) : ℚ :=
  |size| * price * c_mult / balance

end Passivbot

namespace NjitFuncs

/-- Modelled from the spec: `njit_funcs.calc_min_entry_qty` is not in the
source tree; `min_entry_qty = max(min_qty, ceil_to(qty_step,
min_notional/(price·mult)))` (linear form; every call site passes
`inverse = False`). -/
def calc_min_entry_qty (price : ℚ) (inverse : Bool)
    (c_mult qty_step min_qty min_cost : ℚ) : ℚ :=
  max min_qty ((⌈(min_cost / (price * c_mult)) / qty_step⌉ : ℚ) * qty_step)

/-- Modelled from the spec: `njit_funcs.calc_pprice_diff` is not in the
source tree; the price-gap of the position price to the last price,
positive when the position is under water. -/
def calc_pprice_diff (pside : String) (pprice last : ℚ) : ℚ :=
  if pside = "long" then (if 0 < pprice then 1 - last / pprice else 0)
  else (if 0 < pprice then last / pprice - 1 else 0)

end NjitFuncs

namespace Passivbot

/-- Stable insertion of `a` into `l`: `a` is placed before the first
element `b` with `le a b`.  Since Lean's `List.mergeSort` is defined by
well-founded recursion (which the kernel cannot evaluate on concrete
inputs), Python's stable `sorted`/`list.sort` is modelled by this
structurally recursive stable insertion sort instead. -/
def insSorted {α : Type} (le : α → α → Bool) (a : α) : List α → List α
  | [] => [a]
  | b :: t => if le a b then a :: b :: t else b :: insSorted le a t

/-- Stable sort modelling Python's `sorted` / `list.sort`. -/
def stableSort {α : Type} (le : α → α → Bool) : List α → List α
  | [] => []
  | a :: t => insSorted le a (stableSort le t)

/-- The list of stuck `(symbol, pside, pprice_diff)` candidates collected
by the first loop of `Passivbot.calc_unstucking_close`: a held position
whose wallet-exposure limit is zero or whose wallet exposure divided by
the limit exceeds `unstuck_threshold`. -/
def stuckCands (st : BotState) : List (String × String × ℚ) :=
  st.positions.flatMap (fun p =>
    (["long", "short"]).filterMap (fun pside =>
      if has_position st p.1 pside then
        let pos := (posOf st p.1).side pside
        let cfg := (st.live_configs p.1).side pside
        let wallet_exposure :=
          pbr_calc_wallet_exposure (st.c_mults p.1) st.balance pos.size pos.price
        if cfg.wallet_exposure_limit = 0 ∨
            wallet_exposure / cfg.wallet_exposure_limit > cfg.unstuck_threshold then
          some (p.1, pside, NjitFuncs.calc_pprice_diff pside pos.price (st.tickers p.1).last)
        else none
      else none))

/-- The filtered ideal close list
`[x for x in ideal_orders[symbol] if "close" in x[2] and pside in x[2]]
if symbol in ideal_orders else []` of `calc_unstucking_close`. -/
def idealClosesFor (ideal_orders : List (String × List OrderTuple))
    (symbol pside : String) : List OrderTuple :=
  match alookup ideal_orders symbol with
  | some l => l.filter (fun x => strIn "close" x.custom_id && strIn pside x.custom_id)
  | none => []

/-- The unstuck close price of the long branch:
`max(ask, round_up(ema_max·(1 + unstuck_ema_dist), price_step))`. -/
def unstuckLongPrice (st : BotState) (symbol : String) : ℚ :=
  max (st.tickers symbol).ask
    (pbr_round_up
      ((st.emas "long" symbol).maxv *
        (1 + ((st.live_configs symbol).long.unstuck_ema_dist)))
      (st.price_steps symbol))

/-- The unstuck close qty of the long branch:
`-min(psize, max(min_entry_qty, round_dn(cost_to_qty(balance·W·unstuck_close_pct,
close_price), qty_step)))`. -/
def unstuckLongQty (st : BotState) (symbol : String) (close_price : ℚ) : ℚ :=
  -(min ((posOf st symbol).long.size)
    (max (NjitFuncs.calc_min_entry_qty close_price false (st.c_mults symbol)
            (st.qty_steps symbol) (st.min_qtys symbol) (st.min_costs symbol))
         (pbr_round_dn
           (pbr_cost_to_qty
             (st.balance * (st.live_configs symbol).long.wallet_exposure_limit
               * (st.live_configs symbol).long.unstuck_close_pct)
             close_price (st.c_mults symbol))
           (st.qty_steps symbol))))

/-- The second loop of `Passivbot.calc_unstucking_close`, over the stuck
candidates sorted by `pprice_diff`.  In the short branch the source reads
`ideal_closes[0]["price"]` on a tuple, which raises a `TypeError` whenever
a stuck short has a nonempty ideal close list; this is modelled with
`Except.error`. -/
def unstuck_loop (st : BotState) (ideal_orders : List (String × List OrderTuple)) :
    List (String × String × ℚ) → Except String (Option (String × OrderTuple))
  | [] => .ok none
  | (symbol, pside, _) :: rest =>
    if pside = "long" then
      if idealClosesFor ideal_orders symbol pside = [] then
        unstuck_loop st ideal_orders rest
      else if unstuckLongPrice st symbol ≥
          ((idealClosesFor ideal_orders symbol pside).headD ⟨0, 0, ""⟩).price then
        unstuck_loop st ideal_orders rest
      else if unstuckLongQty st symbol (unstuckLongPrice st symbol) ≠ 0 then
        .ok (some (symbol,
          ⟨unstuckLongQty st symbol (unstuckLongPrice st symbol),
           unstuckLongPrice st symbol, "unstuck_close_long"⟩))
      else unstuck_loop st ideal_orders rest
    else
      if idealClosesFor ideal_orders symbol pside = [] then
        unstuck_loop st ideal_orders rest
      else .error "TypeError: tuple indices must be integers"

/-- Source `Passivbot.calc_unstucking_close`.  The sentinel no-close return
`("", (0.0, 0.0, ""))` is modelled as `none`. -/
def calc_unstucking_close (st : BotState)
    (ideal_orders : List (String × List OrderTuple)) :
    Except String (Option (String × OrderTuple)) :=
  if stuckCands st = [] then .ok none
  else unstuck_loop st ideal_orders
    (stableSort (fun a b => decide (a.2.2 ≤ b.2.2)) (stuckCands st))

/-- The set of `(symbol, close)` pairs receiving an unstuck close in a
tick: the single returned close, or nothing (also nothing when the call
raises). -/
def unstuckOutput (st : BotState)
    (ideal_orders : List (String × List OrderTuple)) : List (String × OrderTuple) :=
  match calc_unstucking_close st ideal_orders with
  | .ok (some c) => [c]
  | _ => []

/-- The stuck condition of the source, as a predicate on the recorded
position: the `(symbol, pside)` position is held and its wallet-exposure
limit is zero or `we / W > unstuck_threshold`. -/
def StuckCond (st : BotState) (symbol pside : String) : Prop :=
  ∃ pp, alookup st.positions symbol = some pp ∧ (pp.side pside).size ≠ 0 ∧
    (((st.live_configs symbol).side pside).wallet_exposure_limit = 0 ∨
     pbr_calc_wallet_exposure (st.c_mults symbol) st.balance
         (pp.side pside).size (pp.side pside).price
       / ((st.live_configs symbol).side pside).wallet_exposure_limit
       > ((st.live_configs symbol).side pside).unstuck_threshold)

/-- A concrete state with a single stuck long position on symbol `A`
(`we = 1`, `W = 1/2`, `we/W = 2 > unstuck_threshold = 1`) and no ideal
close orders, so `calc_unstucking_close` skips it. -/
def exUnstuckState1 : BotState where
  balance := 100
  active_symbols := ["A"]
  positions := [("A", ⟨⟨1, 100⟩, ⟨0, 0⟩⟩)]
  open_orders := []
  tickers := fun _ => ⟨100, 101, 100⟩
  live_configs := fun _ => ⟨⟨1/2, 1, 1/100, 1/10, "normal"⟩, ⟨1/2, 1, 1/100, 1/10, "normal"⟩⟩
  qty_steps := fun _ => 1/1000
  price_steps := fun _ => 1
  min_qtys := fun _ => 1/1000
  min_costs := fun _ => 5
  c_mults := fun _ => 1
  emas := fun _ _ => ⟨99, 100, 98⟩

/-- The same state, but with an ideal close-grid order for `A` at price
`102`, above the unstuck close price `101`, so the unstuck close is
produced. -/
def exUnstuckIdeal2 : List (String × List OrderTuple) :=
  [("A", [⟨-(1/2), 102, "close_grid_long"⟩])]

/-- A normalized order dict as used by the reconciler (the ideal orders
of `calc_ideal_orders` and the converted actual orders); `order_id`
carries the exchange id of an actual order (resp. the custom id of an
ideal order), which the diff never compares. -/
structure Order where
  symbol : String
  side : String
  position_side : String
  qty : ℚ
  price : ℚ
  reduce_only : Bool
  order_id : String
  deriving DecidableEq

/-- The five comparison keys `("symbol", "side", "position_side", "qty",
"price")` of `calc_orders_to_cancel_and_create`. -/
def okey (o : Order) : String × String × String × ℚ × ℚ :=
  (o.symbol, o.side, o.position_side, o.qty, o.price)

/-- Keys of a dict in first-insertion order (iteration over the keys of
`actual_orders`, which is built by repeated assignment over
`active_symbols`). -/
def dedupKeysAux : List String → List String → List String
  | _, [] => []
  | seen, s :: t =>
    if s ∈ seen then dedupKeysAux seen t
    else s :: dedupKeysAux (s :: seen) t

def dedupKeys (l : List String) : List String := dedupKeysAux [] l

/-- The conversion of `self.open_orders[symbol]` into normalized dicts in
`calc_orders_to_cancel_and_create` (`qty` made positive; `reduce_only`
derived from `position_side`/`side`). -/
def actual_orders_for (st : BotState) (symbol : String) : List Order :=
  ((alookup st.open_orders symbol).getD []).map (fun x =>
    { symbol := x.symbol
      side := x.side
      position_side := x.position_side
      qty := |x.qty|
      price := x.price
      reduce_only := (x.position_side == "long" && x.side == "sell")
        || (x.position_side == "short" && x.side == "buy")
      order_id := x.order_id })

/-- Modelled from the spec: `pure_funcs.filter_orders` is not in the
source tree.  Spec 4.C9: "Given ideal set I and actual set A keyed by
(symbol, side, position_side, qty, price): `to_cancel = A − I`,
`to_create = I − A`." -/
def filter_orders (actual ideal : List Order) : List Order × List Order :=
  (actual.filter (fun a => !(ideal.any (fun i => okey i == okey a))),
   ideal.filter (fun i => !(actual.any (fun a => okey a == okey i))))

/-- The per-side mode filter of `calc_orders_to_cancel_and_create`:
`manual` drops every order of the side, `tp_only` keeps only the side's
reduce-only orders. -/
def mode_filter (cfg : SideCfg) (pside : String) (l : List Order) : List Order :=
  if cfg.mode = "manual" then
    l.filter (fun x => x.position_side != pside)
  else if cfg.mode = "tp_only" then
    l.filter (fun x => x.position_side != pside
      || (x.position_side == pside && x.reduce_only))
  else l

/-- The `for pside in ["long", "short"]` loop applying the mode filters
to a symbol's `(to_cancel_, to_create_)` pair. -/
def apply_mode_filters (st : BotState) (symbol : String)
    (p : List Order × List Order) : List Order × List Order :=
  (["long", "short"]).foldl (fun p pside =>
    (mode_filter ((st.live_configs symbol).side pside) pside p.1,
     mode_filter ((st.live_configs symbol).side pside) pside p.2)) p

/-- The sort key comparison of the final `sorted(...)` calls:
`calc_diff(price, tickers[symbol].last)` ascending. -/
def cancel_sort_le (st : BotState) (a b : Order) : Bool :=
  decide (Jitted.calc_diff a.price (st.tickers a.symbol).last
    ≤ Jitted.calc_diff b.price (st.tickers b.symbol).last)

/-- The per-symbol `(to_cancel_, to_create_)` blocks of
`Passivbot.calc_orders_to_cancel_and_create`, in the iteration order of
the `actual_orders` dict keys.  The ideal order dict (the result of
`calc_ideal_orders`, whose grid math lives in the `passivbot_rust`
extension outside the source tree) is passed as the input
`ideal_orders_f`. -/
def symbol_pairs (st : BotState)
    (ideal_orders_f : String → List Order) : List (List Order × List Order) :=
  (dedupKeys st.active_symbols).map (fun symbol =>
    apply_mode_filters st symbol
      (filter_orders (actual_orders_for st symbol) (ideal_orders_f symbol)))

/-- The two sorted queues returned by
`Passivbot.calc_orders_to_cancel_and_create`. -/
def calc_orders_to_cancel_and_create (st : BotState)
    (ideal_orders_f : String → List Order) : List Order × List Order :=
  (stableSort (cancel_sort_le st) ((symbol_pairs st ideal_orders_f).flatMap Prod.fst),
   stableSort (cancel_sort_le st) ((symbol_pairs st ideal_orders_f).flatMap Prod.snd))

/-- Source `BitgetBot.execute_cancellations`: when the order list exceeds
`max_n_cancellations_per_batch`, reduce-only orders are moved to the
front before truncation; the trailing `.take` models the
`orders[:max_n_executions]` slice of `execute_multiple`. -/
def bitget_execute_cancellations (capC : ℕ) (orders : List Order) : List Order :=
  (if orders.length > capC then
    ((orders.filter (fun x => x.reduce_only))
      ++ (orders.filter (fun x => !x.reduce_only))).take capC
  else orders).take capC

/-- The cancellations dispatched by one tick of `execute_to_exchange`:
the reconciler's queue is truncated to
`max_n_cancellations_per_batch` before `execute_cancellations` runs. -/
def execute_to_exchange_cancels (st : BotState)
    (ideal_orders_f : String → List Order) (capC : ℕ) : List Order :=
  bitget_execute_cancellations capC
    ((calc_orders_to_cancel_and_create st ideal_orders_f).1.take capC)

/-- The creations dispatched by one tick of `execute_to_exchange`:
`to_create[:max_n_creations_per_batch]`, sliced again by
`execute_multiple`. -/
def execute_to_exchange_creates (st : BotState)
    (ideal_orders_f : String → List Order) (capR : ℕ) : List Order :=
  (((calc_orders_to_cancel_and_create st ideal_orders_f).2.take capR).take capR)

/-- A concrete state whose single actual open order agrees with the
single ideal order on the five comparison keys. -/
def exRecState3 : BotState where
  balance := 1000
  active_symbols := ["A"]
  positions := []
  open_orders := [("A", [⟨"A", "sell", "long", 3/10, 101, "oid1"⟩])]
  tickers := fun _ => ⟨100, 101, 100⟩
  live_configs := fun _ =>
    ⟨⟨1/2, 1, 1/100, 1/10, "normal"⟩, ⟨1/2, 1, 1/100, 1/10, "normal"⟩⟩
  qty_steps := fun _ => 1/1000
  price_steps := fun _ => 1/100
  min_qtys := fun _ => 1/1000
  min_costs := fun _ => 5
  c_mults := fun _ => 1
  emas := fun _ _ => ⟨0, 0, 0⟩

def exRecIdeal3 : String → List Order := fun s =>
  if s = "A" then [⟨"A", "sell", "long", 3/10, 101, true, "close_grid_long"⟩] else []

/-- Like `exRecState3`, but the long side is in `tp_only` mode and there
is no ideal order, so the lone reduce-only open order is cancelled. -/
def exRecState4 : BotState where
  balance := 1000
  active_symbols := ["A"]
  positions := []
  open_orders := [("A", [⟨"A", "sell", "long", 3/10, 101, "oid1"⟩])]
  tickers := fun _ => ⟨100, 101, 100⟩
  live_configs := fun _ =>
    ⟨⟨1/2, 1, 1/100, 1/10, "tp_only"⟩, ⟨1/2, 1, 1/100, 1/10, "normal"⟩⟩
  qty_steps := fun _ => 1/1000
  price_steps := fun _ => 1/100
  min_qtys := fun _ => 1/1000
  min_costs := fun _ => 5
  c_mults := fun _ => 1
  emas := fun _ _ => ⟨0, 0, 0⟩

/-- A state with two stale open orders on `A`: a non-reduce-only entry at
the last price and a reduce-only close further away.  With an empty ideal
set both are queued for cancellation, entry first. -/
def exRecState5 : BotState where
  balance := 1000
  active_symbols := ["A"]
  positions := []
  open_orders := [("A", [⟨"A", "buy", "long", 1, 100, "e1"⟩,
                         ⟨"A", "sell", "long", 1, 120, "r1"⟩])]
  tickers := fun _ => ⟨100, 100, 100⟩
  live_configs := fun _ =>
    ⟨⟨1/2, 1, 1/100, 1/10, "normal"⟩, ⟨1/2, 1, 1/100, 1/10, "normal"⟩⟩
  qty_steps := fun _ => 1/1000
  price_steps := fun _ => 1/100
  min_qtys := fun _ => 1/1000
  min_costs := fun _ => 5
  c_mults := fun _ => 1
  emas := fun _ _ => ⟨0, 0, 0⟩

/-- Initialization `self.execution_delay_millis = max(3000.0,
config["live"]["execution_delay_seconds"] * 1000)` (line 113). -/
def execution_delay_millis (execution_delay_seconds : ℚ) : ℚ :=
  max 3000 (execution_delay_seconds * 1000)

/-- The skip guard of the legacy `execute_to_exchange_old` (line 1827):
the tick is skipped (returns early) iff
`utc_ms() - execution_delay_millis < previous_execution_ts`, where
`previous_execution_ts` is set when the previous tick completed. -/
def execute_to_exchange_old_skips (now previous_execution_ts delay_millis : ℚ) : Bool :=
  decide (now - delay_millis < previous_execution_ts)

/-- One iteration of the active `run_execution_loop` (lines 214-227): a
tick is executed iff the wall-clock minute `utc_ms() // (1000 * 60)`
differs from the previous one; `execution_delay_seconds` is not
consulted. -/
def run_execution_loop_executes (now_ms : ℚ) (prev_minute : ℤ) : Bool :=
  ⌊now_ms / (1000 * 60)⌋ != prev_minute

/-- Source `Passivbot.restart_bot_on_too_many_errors`: prune the error
timestamps to the trailing hour, append the new one, and raise
(`Bool = true`) when the count reaches `max_n_errors_per_hour = 10`. -/
def restart_bot_on_too_many_errors (error_counts : List ℚ) (now : ℚ) :
    List ℚ × Bool :=
  ((error_counts.filter (fun x => decide (x > now - 1000 * 60 * 60))) ++ [now],
   decide (10 ≤ ((error_counts.filter
     (fun x => decide (x > now - 1000 * 60 * 60))) ++ [now]).length))

/-- One round of the `while True` loop of `main` after a bot run ending
at time `t`: append the restart time, prune to the trailing 24 hours, and
break when more than `max_n_restarts_per_day = 5` restarts remain. -/
def main_restart_step (restarts : List ℚ) (t : ℚ) : List ℚ × Bool :=
  ((restarts ++ [t]).filter (fun x => decide (x > t - 1000 * 60 * 60 * 24)),
   decide (5 < ((restarts ++ [t]).filter
     (fun x => decide (x > t - 1000 * 60 * 60 * 24))).length))

/-- The number of bot runs `main` performs when the k-th run ends at the
k-th listed time: each iteration runs the bot once, then the cap check
either breaks the loop or lets it restart. -/
def main_runs (restarts : List ℚ) : List ℚ → ℕ
  | [] => 0
  | t :: ts =>
    1 + (if (main_restart_step restarts t).2 then 0
         else main_runs (main_restart_step restarts t).1 ts)

/-- An order dict handed to `add_new_order` from a websocket or REST
response; the `id` and `symbol` entries may be absent (`none`). -/
structure WsOrder where
  order_id : Option String
  symbol : Option String
  side : String
  position_side : String
  qty : ℚ
  price : ℚ
  deriving DecidableEq

/-- Statement `self.open_orders[symbol].append(order)`: append to the list stored
under the first entry with the given key. -/
def aupdate (l : List (String × List WsOrder)) (s : String) (o : WsOrder) :
    List (String × List WsOrder) :=
  match l with
  | [] => []
  | (k, v) :: t => if k = s then (k, v ++ [o]) :: t else (k, v) :: aupdate t s o

/-- The body of `Passivbot.add_new_order` after the `id`/`symbol` guards:
ensure the symbol key exists, then append the order unless its id is
already recorded (in which case the function falls through and returns
`None`). -/
def add_new_order_go (store : List (String × List WsOrder)) (order : WsOrder)
    (s oid : String) : List (String × List WsOrder) × Option Bool :=
  if ((alookup store s).getD []).any (fun x => x.order_id == some oid) then
    (store, none)
  else (aupdate store s order, some true)

/-- Source `Passivbot.add_new_order` (lines 1051-1069): `some false` models the
`return False` of the guards, `some true` a reported creation, `none` the
fall-through `return None` when the id is already recorded. -/
def add_new_order (open_orders : List (String × List WsOrder)) (order : WsOrder) :
    List (String × List WsOrder) × Option Bool :=
  match order.order_id, order.symbol with
  | none, _ => (open_orders, some false)
  | some _, none => (open_orders, some false)
  | some oid, some s =>
    add_new_order_go
      (if alookup open_orders s = none then open_orders ++ [(s, [])] else open_orders)
      order s oid

end Passivbot

namespace Passivbot

theorem roundHalfEven_intCast (j : ℤ) : roundHalfEven (j : ℚ) = j := by
  unfold roundHalfEven
  simp

theorem npRound_eq_of_den_dvd (y : ℚ) (d : ℕ) (j : ℤ) (hj : y = (j : ℚ) / 10 ^ d) :
    npRound y d = y := by
  unfold npRound
  have h10 : ((10 : ℚ) ^ d) ≠ 0 := by positivity
  have hy : y * 10 ^ d = (j : ℚ) := by
    rw [hj]; field_simp
  rw [hy, roundHalfEven_intCast, ← hy]
  field_simp

theorem roundHalfEven_le (y : ℚ) : (roundHalfEven y : ℚ) ≤ y + 1/2 := by
  unfold roundHalfEven
  have h1 := Int.floor_le y
  have h2 := Int.lt_floor_add_one y
  split_ifs with ha hb hc <;> push_cast <;> linarith

theorem le_roundHalfEven (y : ℚ) : y - 1/2 ≤ (roundHalfEven y : ℚ) := by
  unfold roundHalfEven
  have h1 := Int.floor_le y
  have h2 := Int.lt_floor_add_one y
  split_ifs with ha hb hc <;> push_cast <;> linarith

theorem npRound_mul_step (k : ℤ) (step : ℚ) (hs : StepExact step) :
    npRound ((k : ℚ) * step) 10 = (k : ℚ) * step := by
  obtain ⟨j, hj⟩ := hs
  exact npRound_eq_of_den_dvd _ 10 (k * j) (by rw [hj]; push_cast; ring)

theorem jitted_round_up_exact (n step : ℚ) (hs : StepExact step) :
    Jitted.round_up n step = (⌈n / step⌉ : ℚ) * step :=
  npRound_mul_step _ _ hs

theorem jitted_round_dn_exact (n step : ℚ) (hs : StepExact step) :
    Jitted.round_dn n step = (⌊n / step⌋ : ℚ) * step :=
  npRound_mul_step _ _ hs

theorem jitted_round__exact (n step : ℚ) (hs : StepExact step) :
    Jitted.round_ n step = (roundHalfEven (n / step) : ℚ) * step :=
  npRound_mul_step _ _ hs

end Passivbot

/-- C8, counterexample.  With `qty_step = 1/10`, `price_step = 1/100`,
`min_qty = 0`, `min_notional = 1`, `mult = 1` and `price = 3`, the code
returns `ceil_to(price_step, min_notional/price) = 0.34`, while the claim's
formula `max(min_qty, ceil_to(qty_step, min_notional/(price·mult)))`
gives `0.4`. -/
theorem C8_counterexample :
    Jitted.calc_min_entry_qty (1/10) (1/100) 0 1 1 false 3 = 17/50 ∧
    Passivbot.spec_min_entry_qty (1/10) 0 1 3 1 = 2/5 ∧
    (17/50 : ℚ) ≠ 2/5 := by
  refine ⟨?_, ?_, by norm_num⟩
  · show max (0:ℚ) (Jitted.round_up (1 * (1/3)) (1/100)) = 17/50
    rw [Passivbot.jitted_round_up_exact _ _ ⟨10 ^ 8, by norm_num⟩]
    rw [show ((1:ℚ) * (1/3)) / (1/100) = 100/3 by norm_num]
    rw [show ⌈(100:ℚ)/3⌉ = 34 by rw [Int.ceil_eq_iff]; norm_num]
    norm_num
  · unfold Passivbot.spec_min_entry_qty
    rw [show ((1:ℚ) / (3 * 1)) / (1/10) = 10/3 by norm_num]
    rw [show ⌈(10:ℚ)/3⌉ = 4 by rw [Int.ceil_eq_iff]; norm_num]
    norm_num

/-- C8, amended: for every `price > 0`, in the linear (non-inverse) case,
and for a price step that is an exact multiple of `10 ^ (-10)` (so the
safety rounding is exact), the minimum entry quantity of
`jitted.calc_min_entry_qty` equals
`max(min_qty, ceil_to(price_step, min_notional / price))`: the rounding
step is the price step, not the qty step, and the contract multiplier is
not applied in the linear branch. -/
theorem C8_amended (qty_step price_step min_qty min_cost c_mult price : ℚ)
    (hp : 0 < price) (hs : Passivbot.StepExact price_step) :
    Jitted.calc_min_entry_qty qty_step price_step min_qty min_cost c_mult false price
      = max min_qty ((⌈(min_cost / price) / price_step⌉ : ℚ) * price_step) := by
  unfold Jitted.calc_min_entry_qty
  rw [if_neg (by simp)]
  rw [Passivbot.jitted_round_up_exact _ _ hs]
  rw [mul_one_div]

/-- C8 amended, witness at `price = 3 > 0`, `price_step = 1/100`. -/
theorem C8_amended_witness :
    (0:ℚ) < 3 ∧ Passivbot.StepExact (1/100) ∧
    Jitted.calc_min_entry_qty (1/10) (1/100) 0 1 1 false 3
      = max 0 ((⌈((1:ℚ) / 3) / (1/100)⌉ : ℚ) * (1/100)) :=
  ⟨by norm_num, ⟨10 ^ 8, by norm_num⟩,
    C8_amended (1/10) (1/100) 0 1 1 3 (by norm_num) ⟨10 ^ 8, by norm_num⟩⟩

/-- C9, counterexample.  For `step = 2/3 > 0` and `x = 1`,
`jitted.round_up` returns `13333333333 / 10^10` (the 10-decimal safety
rounding of `4/3`), which is not an integer multiple of the step, so the
rounding law as claimed fails for steps that are not exact multiples of
`10^(-10)`. -/
theorem C9_counterexample :
    (0:ℚ) < 2/3 ∧
    Jitted.round_up 1 (2/3) = 13333333333 / 10 ^ 10 ∧
    ¬ ∃ k : ℤ, Jitted.round_up 1 (2/3) = (k : ℚ) * (2/3) := by
  have hval : Jitted.round_up 1 (2/3) = 13333333333 / 10 ^ 10 := by
    unfold Jitted.round_up Passivbot.npRound Passivbot.roundHalfEven
    rw [show ((1:ℚ) / (2/3)) = 3/2 by norm_num]
    rw [show ⌈(3:ℚ)/2⌉ = 2 by rw [Int.ceil_eq_iff]; norm_num]
    rw [show ((2:ℤ) : ℚ) * (2/3) * 10 ^ 10 = 40000000000/3 by norm_num]
    rw [show ⌊(40000000000:ℚ)/3⌋ = 13333333333 by rw [Int.floor_eq_iff] ; norm_num]
    norm_num
  refine ⟨by norm_num, hval, ?_⟩
  rintro ⟨k, hk⟩
  rw [hval] at hk
  have h2 : (39999999999 : ℚ) = (k : ℚ) * 20000000000 := by
    field_simp at hk
    linarith
  have h3 : (39999999999 : ℤ) = k * 20000000000 := by exact_mod_cast h2
  omega

/-- C9, amended: for every `step > 0` that is an exact integer multiple of
`10^(-10)` (so the `np.round(·, 10)` safety rounding is exact — price and
qty steps are powers of `10^(-n)` with `n ≤ 10`) and every `x`:
`round_up`, `round_dn` and `round_` each return an integer multiple of
`step`; each result differs from `x` by at most `step`; and
`round_dn x step ≤ x ≤ round_up x step`. -/
theorem C9_amended (step x : ℚ) (hpos : 0 < step) (hex : Passivbot.StepExact step) :
    (∃ k : ℤ, Jitted.round_up x step = (k : ℚ) * step) ∧
    (∃ k : ℤ, Jitted.round_dn x step = (k : ℚ) * step) ∧
    (∃ k : ℤ, Jitted.round_ x step = (k : ℚ) * step) ∧
    |Jitted.round_up x step - x| ≤ step ∧
    |Jitted.round_dn x step - x| ≤ step ∧
    |Jitted.round_ x step - x| ≤ step ∧
    Jitted.round_dn x step ≤ x ∧ x ≤ Jitted.round_up x step := by
  have hne : step ≠ 0 := ne_of_gt hpos
  have hup := Passivbot.jitted_round_up_exact x step hex
  have hdn := Passivbot.jitted_round_dn_exact x step hex
  have hrd := Passivbot.jitted_round__exact x step hex
  have hceil₁ : x / step ≤ (⌈x / step⌉ : ℚ) := Int.le_ceil _
  have hceil₂ : (⌈x / step⌉ : ℚ) < x / step + 1 := Int.ceil_lt_add_one _
  have hfl₁ : (⌊x / step⌋ : ℚ) ≤ x / step := Int.floor_le _
  have hfl₂ : x / step - 1 < (⌊x / step⌋ : ℚ) := by
    have := Int.lt_floor_add_one (x / step); linarith
  have hr₁ := Passivbot.roundHalfEven_le (x / step)
  have hr₂ := Passivbot.le_roundHalfEven (x / step)
  have hxs : x / step * step = x := div_mul_cancel₀ x hne
  have hub : x ≤ (⌈x / step⌉ : ℚ) * step := by
    have h := mul_le_mul_of_nonneg_right hceil₁ (le_of_lt hpos)
    rw [hxs] at h; exact h
  have hub' : (⌈x / step⌉ : ℚ) * step ≤ x + step := by
    have h := mul_le_mul_of_nonneg_right (le_of_lt hceil₂) (le_of_lt hpos)
    rw [add_mul, one_mul, hxs] at h; exact h
  have hlb : (⌊x / step⌋ : ℚ) * step ≤ x := by
    have h := mul_le_mul_of_nonneg_right hfl₁ (le_of_lt hpos)
    rw [hxs] at h; exact h
  have hlb' : x - step ≤ (⌊x / step⌋ : ℚ) * step := by
    have h := mul_le_mul_of_nonneg_right (le_of_lt hfl₂) (le_of_lt hpos)
    rw [sub_mul, one_mul, hxs] at h; exact h
  have hrub : (Passivbot.roundHalfEven (x / step) : ℚ) * step ≤ x + step := by
    have h := mul_le_mul_of_nonneg_right hr₁ (le_of_lt hpos)
    rw [add_mul, hxs] at h
    nlinarith
  have hrlb : x - step ≤ (Passivbot.roundHalfEven (x / step) : ℚ) * step := by
    have h := mul_le_mul_of_nonneg_right hr₂ (le_of_lt hpos)
    rw [sub_mul, hxs] at h
    nlinarith
  refine ⟨⟨⌈x / step⌉, hup⟩, ⟨⌊x / step⌋, hdn⟩, ⟨Passivbot.roundHalfEven (x / step), hrd⟩,
    ?_, ?_, ?_, ?_, ?_⟩
  · rw [hup, abs_le]; constructor <;> linarith
  · rw [hdn, abs_le]; constructor <;> linarith
  · rw [hrd, abs_le]; constructor <;> linarith
  · rw [hdn]; exact hlb
  · rw [hup]; exact hub

/-- C9 amended, witness at `step = 1/10`, `x = 1/3`. -/
theorem C9_amended_witness :
    (0:ℚ) < 1/10 ∧ Passivbot.StepExact (1/10) ∧
    ((∃ k : ℤ, Jitted.round_up (1/3) (1/10) = (k : ℚ) * (1/10)) ∧
     (∃ k : ℤ, Jitted.round_dn (1/3) (1/10) = (k : ℚ) * (1/10)) ∧
     (∃ k : ℤ, Jitted.round_ (1/3) (1/10) = (k : ℚ) * (1/10)) ∧
     |Jitted.round_up (1/3) (1/10) - 1/3| ≤ 1/10 ∧
     |Jitted.round_dn (1/3) (1/10) - 1/3| ≤ 1/10 ∧
     |Jitted.round_ (1/3) (1/10) - 1/3| ≤ 1/10 ∧
     Jitted.round_dn (1/3) (1/10) ≤ 1/3 ∧ (1/3 : ℚ) ≤ Jitted.round_up (1/3) (1/10)) :=
  ⟨by norm_num, ⟨10 ^ 9, by norm_num⟩,
    C9_amended (1/10) (1/3) (by norm_num) ⟨10 ^ 9, by norm_num⟩⟩

namespace Passivbot

theorem mem_insSorted {α : Type} (le : α → α → Bool) (a x : α) (l : List α) :
    x ∈ insSorted le a l ↔ x = a ∨ x ∈ l := by
  induction l with
  | nil => simp [insSorted]
  | cons b t ih =>
    unfold insSorted
    split
    · simp
    · simp only [List.mem_cons, ih]
      tauto

theorem mem_stableSort {α : Type} (le : α → α → Bool) (x : α) (l : List α) :
    x ∈ stableSort le l ↔ x ∈ l := by
  induction l with
  | nil => simp [stableSort]
  | cons a t ih =>
    unfold stableSort
    rw [mem_insSorted]
    simp [ih]

theorem sorted_insSorted {α : Type} (le : α → α → Bool)
    (htot : ∀ x y, le x y = true ∨ le y x = true)
    (htrans : ∀ x y z, le x y = true → le y z = true → le x z = true)
    (a : α) (l : List α) (hl : l.Pairwise (fun x y => le x y = true)) :
    (insSorted le a l).Pairwise (fun x y => le x y = true) := by
  induction l with
  | nil => simp [insSorted]
  | cons b t ih =>
    rw [List.pairwise_cons] at hl
    unfold insSorted
    split
    · rename_i hab
      rw [List.pairwise_cons]
      refine ⟨?_, by rw [List.pairwise_cons]; exact hl⟩
      intro x hx
      rcases List.mem_cons.mp hx with h | h
      · rw [h]; exact hab
      · exact htrans a b x hab (hl.1 x h)
    · rename_i hab
      have hba : le b a = true := by
        rcases htot a b with h | h
        · exact absurd h hab
        · exact h
      rw [List.pairwise_cons]
      constructor
      · intro x hx
        rcases (mem_insSorted le a x t).mp hx with h | h
        · rw [h]; exact hba
        · exact hl.1 x h
      · exact ih hl.2

theorem sorted_stableSort {α : Type} (le : α → α → Bool)
    (htot : ∀ x y, le x y = true ∨ le y x = true)
    (htrans : ∀ x y z, le x y = true → le y z = true → le x z = true)
    (l : List α) :
    (stableSort le l).Pairwise (fun x y => le x y = true) := by
  induction l with
  | nil => simp [stableSort]
  | cons a t ih =>
    unfold stableSort
    exact sorted_insSorted le htot htrans a _ ih

theorem mem_stuckCands_sound (st : BotState) (c : String × String × ℚ)
    (hc : c ∈ stuckCands st) : StuckCond st c.1 c.2.1 := by
  unfold stuckCands at hc
  rw [List.mem_flatMap] at hc
  obtain ⟨p, _, hmem⟩ := hc
  rw [List.mem_filterMap] at hmem
  obtain ⟨pside, _, hres⟩ := hmem
  by_cases hhp : has_position st p.1 pside
  · rw [if_pos hhp] at hres
    unfold has_position at hhp
    obtain ⟨pp, hpp⟩ : ∃ pp, alookup st.positions p.1 = some pp := by
      cases hal : alookup st.positions p.1 with
      | some pp => exact ⟨pp, rfl⟩
      | none => rw [hal] at hhp; simp at hhp
    rw [hpp] at hhp
    have hsz : (pp.side pside).size ≠ 0 := by
      simpa using hhp
    have hpos : posOf st p.1 = pp := by
      unfold posOf; rw [hpp]; rfl
    rw [hpos] at hres
    by_cases hstuck : ((st.live_configs p.1).side pside).wallet_exposure_limit = 0 ∨
        pbr_calc_wallet_exposure (st.c_mults p.1) st.balance
            (pp.side pside).size (pp.side pside).price
          / ((st.live_configs p.1).side pside).wallet_exposure_limit
          > ((st.live_configs p.1).side pside).unstuck_threshold
    · rw [if_pos hstuck] at hres
      obtain ⟨h1, h2⟩ : c.1 = p.1 ∧ c.2.1 = pside := by
        cases hres; exact ⟨rfl, rfl⟩
      rw [h1, h2]
      exact ⟨pp, hpp, hsz, hstuck⟩
    · rw [if_neg hstuck] at hres
      cases hres
  · rw [if_neg hhp] at hres
    cases hres

theorem unstuck_loop_sound (st : BotState)
    (ideal_orders : List (String × List OrderTuple)) :
    ∀ (l : List (String × String × ℚ)),
      (∀ c ∈ l, StuckCond st c.1 c.2.1) →
      ∀ symbol t, unstuck_loop st ideal_orders l = .ok (some (symbol, t)) →
        t.custom_id = "unstuck_close_long" ∧ StuckCond st symbol "long" := by
  intro l
  induction l with
  | nil =>
    intro _ symbol t h
    simp [unstuck_loop] at h
  | cons hd rest ih =>
    intro hall symbol t h
    obtain ⟨s, pside, d⟩ := hd
    unfold unstuck_loop at h
    by_cases hps : pside = "long"
    · rw [if_pos hps] at h
      split at h
      · exact ih (fun c hc => hall c (List.mem_cons_of_mem _ hc)) symbol t h
      · split at h
        · exact ih (fun c hc => hall c (List.mem_cons_of_mem _ hc)) symbol t h
        · split at h
          · have hhd := hall (s, pside, d) (List.mem_cons_self _ _)
            obtain ⟨h1, h2⟩ : symbol = s ∧ t = ⟨_, _, "unstuck_close_long"⟩ := by
              cases h; exact ⟨rfl, rfl⟩
            subst h1
            refine ⟨by rw [h2], ?_⟩
            rw [← hps]
            exact hhd
          · exact ih (fun c hc => hall c (List.mem_cons_of_mem _ hc)) symbol t h
    · rw [if_neg hps] at h
      split at h
      · exact ih (fun c hc => hall c (List.mem_cons_of_mem _ hc)) symbol t h
      · cases h

end Passivbot

/-- C1, amended: every `(symbol, side)` receiving an unstuck close is
stuck in the sense of the source — its wallet-exposure limit is zero or
`we / W > unstuck_threshold` — and at most one `(symbol, side)` receives
an unstuck close per tick.  (The converse of the claim's "iff" fails: a
stuck position need not be included, see the counterexample.) -/
theorem C1_amended (st : Passivbot.BotState)
    (ideal_orders : List (String × List Passivbot.OrderTuple)) :
    (∀ c ∈ Passivbot.unstuckOutput st ideal_orders,
       c.2.custom_id = "unstuck_close_long" ∧ Passivbot.StuckCond st c.1 "long") ∧
    (Passivbot.unstuckOutput st ideal_orders).length ≤ 1 := by
  constructor
  · intro c hc
    unfold Passivbot.unstuckOutput at hc
    cases hres : Passivbot.calc_unstucking_close st ideal_orders with
    | error e => rw [hres] at hc; simp at hc
    | ok v =>
      cases v with
      | none => rw [hres] at hc; simp at hc
      | some c' =>
        rw [hres] at hc
        have hcc : c = c' := by simpa using hc
        subst hcc
        unfold Passivbot.calc_unstucking_close at hres
        split at hres
        · cases hres
        · exact Passivbot.unstuck_loop_sound st ideal_orders _
            (fun x hx => Passivbot.mem_stuckCands_sound st x
              ((Passivbot.mem_stableSort _ x _).mp hx))
            c.1 c.2 (by rw [← hres])
  · unfold Passivbot.unstuckOutput
    cases Passivbot.calc_unstucking_close st ideal_orders with
    | error e => simp
    | ok v => cases v <;> simp

unseal Rat.add Rat.mul Rat.inv Rat.sub in
/-- C1, counterexample.  In `exUnstuckState1`, the long position on `A`
has `we/W = 2 > unstuck_threshold = 1`, yet no `(symbol, side)` is
included in the unstuck output: the symbol has no ideal close orders, so
`calc_unstucking_close` skips it and returns the no-close sentinel.  This
refutes the "included iff `we/W > unstuck_threshold`" direction of the
claim. -/
theorem C1_counterexample :
    Passivbot.pbr_calc_wallet_exposure
        (Passivbot.exUnstuckState1.c_mults "A") Passivbot.exUnstuckState1.balance 1 100
      / (Passivbot.exUnstuckState1.live_configs "A").long.wallet_exposure_limit
      > (Passivbot.exUnstuckState1.live_configs "A").long.unstuck_threshold ∧
    Passivbot.alookup Passivbot.exUnstuckState1.positions "A" = some ⟨⟨1, 100⟩, ⟨0, 0⟩⟩ ∧
    Passivbot.unstuckOutput Passivbot.exUnstuckState1 [] = [] := by
  refine ⟨by decide, by decide, by decide⟩

unseal Rat.add Rat.mul Rat.inv Rat.sub in
/-- C2.  `calc_unstucking_close` places the unstuck bleed close without
consulting realized PnL at all: the function takes no PnL or loss-allowance
input (`calc_AU_allowance` is imported at line 50 of
`passivbot_forager.py` but never called), so in `exUnstuckState1` with
ideal closes `exUnstuckIdeal2` the bleed close `(-0.05, 101)` is emitted
regardless of how negative the cumulative realized PnL of the lookback
window is. -/
theorem C2_no_loss_allowance_check :
    Passivbot.calc_unstucking_close Passivbot.exUnstuckState1 Passivbot.exUnstuckIdeal2
      = .ok (some ("A", ⟨-(1/20), 101, "unstuck_close_long"⟩)) := by
  have h : (Passivbot.calc_unstucking_close Passivbot.exUnstuckState1
      Passivbot.exUnstuckIdeal2).toOption
      = some (some ("A", ⟨-(1/20), 101, "unstuck_close_long"⟩)) := by decide
  cases hres : Passivbot.calc_unstucking_close Passivbot.exUnstuckState1
      Passivbot.exUnstuckIdeal2 with
  | error e => rw [hres] at h; simp [Except.toOption] at h
  | ok v => rw [hres] at h; simp [Except.toOption] at h; rw [h]; norm_num

unseal Rat.add Rat.mul Rat.inv Rat.sub in
/-- C1 amended, witness: in `exUnstuckState1` with `exUnstuckIdeal2` the
unstuck output is the single close on `("A", long)`, and the theorem
yields its stuck condition. -/
theorem C1_amended_witness :
    ((("A", ⟨-(1/20), 101, "unstuck_close_long"⟩) :
        String × Passivbot.OrderTuple).2.custom_id = "unstuck_close_long" ∧
      Passivbot.StuckCond Passivbot.exUnstuckState1 "A" "long") :=
  (C1_amended Passivbot.exUnstuckState1 Passivbot.exUnstuckIdeal2).1
    ("A", ⟨-(1/20), 101, "unstuck_close_long"⟩) (by decide)

namespace Passivbot

theorem mem_dedupKeysAux (l : List String) :
    ∀ (seen : List String) (x : String),
      x ∈ dedupKeysAux seen l → x ∈ l := by
  induction l with
  | nil => intro seen x h; simp [dedupKeysAux] at h
  | cons s t ih =>
    intro seen x h
    unfold dedupKeysAux at h
    split at h
    · exact List.mem_cons_of_mem _ (ih seen x h)
    · rcases List.mem_cons.mp h with h | h
      · rw [h]; exact List.mem_cons_self _ _
      · exact List.mem_cons_of_mem _ (ih (s :: seen) x h)

theorem mem_dedupKeys {l : List String} {x : String} (h : x ∈ dedupKeys l) : x ∈ l :=
  mem_dedupKeysAux l [] x h

theorem mode_filter_nil (cfg : SideCfg) (pside : String) :
    mode_filter cfg pside [] = [] := by
  unfold mode_filter
  split_ifs <;> rfl

theorem apply_mode_filters_nil (st : BotState) (symbol : String) :
    apply_mode_filters st symbol ([], []) = ([], []) := by
  unfold apply_mode_filters
  simp [List.foldl_cons, mode_filter_nil]

theorem flatMap_eq_nil_of {α β : Type} (l : List α) (f : α → List β)
    (h : ∀ x ∈ l, f x = []) : l.flatMap f = [] := by
  induction l with
  | nil => rfl
  | cons a t ih =>
    rw [List.flatMap_cons, h a (List.mem_cons_self _ _), List.nil_append]
    exact ih (fun x hx => h x (List.mem_cons_of_mem _ hx))

end Passivbot

/-- C3.  If, for every active symbol, the ideal order set and the actual
open-order set agree on the keys `(symbol, side, position_side, qty,
price)` — every actual order has a key-equal ideal order and vice versa —
then `calc_orders_to_cancel_and_create` returns empty `to_cancel` and
`to_create` lists. -/
theorem C3_reconciler_idempotent (st : Passivbot.BotState)
    (ideal_orders_f : String → List Passivbot.Order)
    (h : ∀ s ∈ st.active_symbols,
      (∀ a ∈ Passivbot.actual_orders_for st s, ∃ i ∈ ideal_orders_f s,
        Passivbot.okey i = Passivbot.okey a) ∧
      (∀ i ∈ ideal_orders_f s, ∃ a ∈ Passivbot.actual_orders_for st s,
        Passivbot.okey a = Passivbot.okey i)) :
    Passivbot.calc_orders_to_cancel_and_create st ideal_orders_f = ([], []) := by
  unfold Passivbot.calc_orders_to_cancel_and_create Passivbot.symbol_pairs
  have hpairs : ∀ s ∈ Passivbot.dedupKeys st.active_symbols,
      Passivbot.apply_mode_filters st s
        (Passivbot.filter_orders (Passivbot.actual_orders_for st s)
          (ideal_orders_f s)) = ([], []) := by
    intro s hs
    obtain ⟨h1, h2⟩ := h s (Passivbot.mem_dedupKeys hs)
    have hfo : Passivbot.filter_orders (Passivbot.actual_orders_for st s)
        (ideal_orders_f s) = ([], []) := by
      unfold Passivbot.filter_orders
      have ha : (Passivbot.actual_orders_for st s).filter
          (fun a => !((ideal_orders_f s).any
            (fun i => Passivbot.okey i == Passivbot.okey a))) = [] := by
        rw [List.filter_eq_nil_iff]
        intro a hmem
        obtain ⟨i, hi, hk⟩ := h1 a hmem
        simp only [Bool.not_eq_true', Bool.not_eq_false]
        rw [List.any_eq_true]
        exact ⟨i, hi, by simp [hk]⟩
      have hb : (ideal_orders_f s).filter
          (fun i => !((Passivbot.actual_orders_for st s).any
            (fun a => Passivbot.okey a == Passivbot.okey i))) = [] := by
        rw [List.filter_eq_nil_iff]
        intro i hmem
        obtain ⟨a, hmema, hk⟩ := h2 i hmem
        simp only [Bool.not_eq_true', Bool.not_eq_false]
        rw [List.any_eq_true]
        exact ⟨a, hmema, by simp [hk]⟩
      rw [ha, hb]
    rw [hfo]
    exact Passivbot.apply_mode_filters_nil st s
  have hfst : ((Passivbot.dedupKeys st.active_symbols).map (fun symbol =>
      Passivbot.apply_mode_filters st symbol
        (Passivbot.filter_orders (Passivbot.actual_orders_for st symbol)
          (ideal_orders_f symbol)))).flatMap Prod.fst = [] := by
    apply Passivbot.flatMap_eq_nil_of
    intro x hx
    obtain ⟨s, hs, hxs⟩ := List.mem_map.mp hx
    rw [← hxs, hpairs s hs]
  have hsnd : ((Passivbot.dedupKeys st.active_symbols).map (fun symbol =>
      Passivbot.apply_mode_filters st symbol
        (Passivbot.filter_orders (Passivbot.actual_orders_for st symbol)
          (ideal_orders_f symbol)))).flatMap Prod.snd = [] := by
    apply Passivbot.flatMap_eq_nil_of
    intro x hx
    obtain ⟨s, hs, hxs⟩ := List.mem_map.mp hx
    rw [← hxs, hpairs s hs]
  rw [hfst, hsnd]
  rfl

namespace Passivbot

theorem alookup_mem {β : Type} (l : List (String × β)) (s : String) (v : β)
    (h : alookup l s = some v) : (s, v) ∈ l := by
  induction l with
  | nil => simp [alookup] at h
  | cons p t ih =>
    obtain ⟨k, w⟩ := p
    unfold alookup at h
    split at h
    · rename_i hk
      obtain rfl : w = v := by cases h; rfl
      rw [hk]
      exact List.mem_cons_self _ _
    · exact List.mem_cons_of_mem _ (ih h)

theorem mem_actual_orders_symbol (st : BotState) (s : String) (o : Order)
    (hoo : ∀ s2 l, (s2, l) ∈ st.open_orders → ∀ x ∈ l, x.symbol = s2)
    (hmem : o ∈ actual_orders_for st s) : o.symbol = s := by
  unfold actual_orders_for at hmem
  cases hal : alookup st.open_orders s with
  | none => rw [hal] at hmem; simp at hmem
  | some l =>
    rw [hal] at hmem
    simp only [Option.getD_some] at hmem
    obtain ⟨x, hx, hmap⟩ := List.mem_map.mp hmem
    rw [← hmap]
    exact hoo s l (alookup_mem _ _ _ hal) x hx

theorem mem_mode_filter (cfg : SideCfg) (pside : String) (l : List Order) (o : Order)
    (h : o ∈ mode_filter cfg pside l) :
    o ∈ l ∧ (cfg.mode = "manual" → o.position_side ≠ pside) ∧
      (cfg.mode = "tp_only" → o.position_side = pside → o.reduce_only = true) := by
  unfold mode_filter at h
  split_ifs at h with h1 h2
  · have hm := List.mem_filter.mp h
    refine ⟨hm.1, fun _ => ?_, fun ht => absurd (h1 ▸ ht.symm) (by simp)⟩
    have := hm.2
    simpa using this
  · have hm := List.mem_filter.mp h
    refine ⟨hm.1, fun hmm => absurd (h2 ▸ hmm.symm) (by simp), fun _ hps => ?_⟩
    have hcond := hm.2
    simp only [Bool.or_eq_true, Bool.and_eq_true, bne_iff_ne, beq_iff_eq] at hcond
    rcases hcond with hne | ⟨_, hro⟩
    · exact absurd hps hne
    · exact hro
  · exact ⟨h, fun hm => absurd hm h1, fun ht => absurd ht h2⟩

theorem apply_mode_filters_fst (st : BotState) (symbol : String)
    (p : List Order × List Order) :
    (apply_mode_filters st symbol p).1 =
      mode_filter ((st.live_configs symbol).side "short") "short"
        (mode_filter ((st.live_configs symbol).side "long") "long" p.1) := rfl

theorem apply_mode_filters_snd (st : BotState) (symbol : String)
    (p : List Order × List Order) :
    (apply_mode_filters st symbol p).2 =
      mode_filter ((st.live_configs symbol).side "short") "short"
        (mode_filter ((st.live_configs symbol).side "long") "long" p.2) := rfl

/-- The side conditions established for every order surviving a symbol's
mode filters. -/
theorem mem_symbol_pairs_conds (st : BotState)
    (ideal_orders_f : String → List Order) (s : String) (o : Order)
    (hmem : o ∈ (apply_mode_filters st s
        (filter_orders (actual_orders_for st s) (ideal_orders_f s))).1 ∨
      o ∈ (apply_mode_filters st s
        (filter_orders (actual_orders_for st s) (ideal_orders_f s))).2) :
    (o ∈ actual_orders_for st s ∨ o ∈ ideal_orders_f s) ∧
    (∀ pside, pside = "long" ∨ pside = "short" →
      (((st.live_configs s).side pside).mode = "manual" → o.position_side ≠ pside) ∧
      (((st.live_configs s).side pside).mode = "tp_only" →
        o.position_side = pside → o.reduce_only = true)) := by
  have hsrc : (o ∈ (filter_orders (actual_orders_for st s) (ideal_orders_f s)).1 →
      o ∈ actual_orders_for st s) ∧
      (o ∈ (filter_orders (actual_orders_for st s) (ideal_orders_f s)).2 →
      o ∈ ideal_orders_f s) := by
    constructor
    · intro hm
      exact (List.mem_filter.mp hm).1
    · intro hm
      exact (List.mem_filter.mp hm).1
  rcases hmem with hmem | hmem
  · rw [apply_mode_filters_fst] at hmem
    have hshort := mem_mode_filter _ _ _ _ hmem
    have hlong := mem_mode_filter _ _ _ _ hshort.1
    refine ⟨Or.inl (hsrc.1 hlong.1), ?_⟩
    intro pside hps
    rcases hps with h | h <;> rw [h]
    · exact ⟨hlong.2.1, hlong.2.2⟩
    · exact ⟨hshort.2.1, hshort.2.2⟩
  · rw [apply_mode_filters_snd] at hmem
    have hshort := mem_mode_filter _ _ _ _ hmem
    have hlong := mem_mode_filter _ _ _ _ hshort.1
    refine ⟨Or.inr (hsrc.2 hlong.1), ?_⟩
    intro pside hps
    rcases hps with h | h <;> rw [h]
    · exact ⟨hlong.2.1, hlong.2.2⟩
    · exact ⟨hshort.2.1, hshort.2.2⟩

end Passivbot

/-- C4.  For every symbol and side in {long, short}: when that side's
mode is `manual`, `calc_orders_to_cancel_and_create` emits no
cancellation or creation for that symbol with that `position_side`; when
it is `tp_only`, every emitted cancellation and creation for that symbol
with that `position_side` is reduce-only.  The hypotheses state the store
invariants that every recorded open order and every ideal order carries
the symbol it is filed under. -/
theorem C4_mode_filters (st : Passivbot.BotState)
    (ideal_orders_f : String → List Passivbot.Order)
    (hoo : ∀ s l, (s, l) ∈ st.open_orders → ∀ x ∈ l, x.symbol = s)
    (hid : ∀ s, ∀ o ∈ ideal_orders_f s, o.symbol = s)
    (sym pside : String) (o : Passivbot.Order)
    (hps : pside = "long" ∨ pside = "short")
    (hsym : o.symbol = sym) (hpside : o.position_side = pside)
    (hmem : o ∈ (Passivbot.calc_orders_to_cancel_and_create st ideal_orders_f).1 ∨
      o ∈ (Passivbot.calc_orders_to_cancel_and_create st ideal_orders_f).2) :
    ((st.live_configs sym).side pside).mode ≠ "manual" ∧
    (((st.live_configs sym).side pside).mode = "tp_only" → o.reduce_only = true) := by
  have hblock : ∃ s, s ∈ Passivbot.dedupKeys st.active_symbols ∧
      (o ∈ (Passivbot.apply_mode_filters st s
        (Passivbot.filter_orders (Passivbot.actual_orders_for st s)
          (ideal_orders_f s))).1 ∨
       o ∈ (Passivbot.apply_mode_filters st s
        (Passivbot.filter_orders (Passivbot.actual_orders_for st s)
          (ideal_orders_f s))).2) := by
    rcases hmem with hmem | hmem
    · have h2 := (Passivbot.mem_stableSort _ o _).mp hmem
      obtain ⟨pr, hpr, hopr⟩ := List.mem_flatMap.mp h2
      obtain ⟨s, hs, hseq⟩ := List.mem_map.mp hpr
      exact ⟨s, hs, Or.inl (by rw [hseq]; exact hopr)⟩
    · have h2 := (Passivbot.mem_stableSort _ o _).mp hmem
      obtain ⟨pr, hpr, hopr⟩ := List.mem_flatMap.mp h2
      obtain ⟨s, hs, hseq⟩ := List.mem_map.mp hpr
      exact ⟨s, hs, Or.inr (by rw [hseq]; exact hopr)⟩
  obtain ⟨s, _, hm⟩ := hblock
  have hc := Passivbot.mem_symbol_pairs_conds st ideal_orders_f s o hm
  have hos : o.symbol = s := by
    rcases hc.1 with h | h
    · exact Passivbot.mem_actual_orders_symbol st s o hoo h
    · exact hid s o h
  have hssym : s = sym := by rw [← hos, hsym]
  have hconds := hc.2 pside hps
  rw [hssym] at hconds
  exact ⟨fun hmm => absurd hpside (hconds.1 hmm), fun ht => hconds.2 ht hpside⟩

unseal Rat.add Rat.mul Rat.inv Rat.sub in
/-- C3, witness: in `exRecState3` the ideal and actual sets agree on the
keys and the reconciler returns two empty queues. -/
theorem C3_witness :
    (∀ s ∈ Passivbot.exRecState3.active_symbols,
      (∀ a ∈ Passivbot.actual_orders_for Passivbot.exRecState3 s,
        ∃ i ∈ Passivbot.exRecIdeal3 s, Passivbot.okey i = Passivbot.okey a) ∧
      (∀ i ∈ Passivbot.exRecIdeal3 s,
        ∃ a ∈ Passivbot.actual_orders_for Passivbot.exRecState3 s,
          Passivbot.okey a = Passivbot.okey i)) ∧
    Passivbot.calc_orders_to_cancel_and_create Passivbot.exRecState3
      Passivbot.exRecIdeal3 = ([], []) :=
  ⟨by decide, C3_reconciler_idempotent Passivbot.exRecState3 Passivbot.exRecIdeal3
    (by decide)⟩

unseal Rat.add Rat.mul Rat.inv Rat.sub in
/-- C4, witness: in `exRecState4` (long side `tp_only`) the reduce-only
close on `A` is queued for cancellation, and the theorem yields that the
mode is not `manual` and the emitted order is reduce-only. -/
theorem C4_witness :
    ((Passivbot.exRecState4.live_configs "A").side "long").mode ≠ "manual" ∧
    (((Passivbot.exRecState4.live_configs "A").side "long").mode = "tp_only" →
      (⟨"A", "sell", "long", 3/10, 101, true, "oid1"⟩ : Passivbot.Order).reduce_only
        = true) :=
  C4_mode_filters Passivbot.exRecState4 (fun _ => [])
    (by
      intro s l h x hx
      simp only [Passivbot.exRecState4] at h
      rw [List.mem_singleton] at h
      obtain ⟨h1, h2⟩ := Prod.mk.injEq .. |>.mp h
      rw [h2, List.mem_singleton] at hx
      rw [hx, h1])
    (by intro s o h; simp at h)
    "A" "long" ⟨"A", "sell", "long", 3/10, 101, true, "oid1"⟩
    (Or.inl rfl) rfl rfl
    (Or.inl (by decide))

unseal Rat.add Rat.mul Rat.inv Rat.sub in
/-- C5, counterexample.  In `exRecState5` with an empty ideal set, two
cancellations are pending (entry at distance 0, reduce-only close at
distance 1/5) and the cap is 1.  The tick dispatches the non-reduce-only
entry and drops the reduce-only close: the reconciler truncates the
distance-sorted queue to the cap before `execute_cancellations` runs, so
its reduce-only prioritization never sees the excess and reduce-only
cancellations are not kept in preference. -/
theorem C5_counterexample :
    (Passivbot.calc_orders_to_cancel_and_create Passivbot.exRecState5
      (fun _ => [])).1.length = 2 ∧
    Passivbot.execute_to_exchange_cancels Passivbot.exRecState5 (fun _ => []) 1
      = [⟨"A", "buy", "long", 1, 100, false, "e1"⟩] ∧
    (⟨"A", "buy", "long", 1, 100, false, "e1"⟩ : Passivbot.Order).reduce_only
      = false ∧
    (⟨"A", "sell", "long", 1, 120, true, "r1"⟩ : Passivbot.Order)
      ∈ (Passivbot.calc_orders_to_cancel_and_create Passivbot.exRecState5
          (fun _ => [])).1 ∧
    (⟨"A", "sell", "long", 1, 120, true, "r1"⟩ : Passivbot.Order).reduce_only
      = true ∧
    (⟨"A", "sell", "long", 1, 120, true, "r1"⟩ : Passivbot.Order)
      ∉ Passivbot.execute_to_exchange_cancels Passivbot.exRecState5
          (fun _ => []) 1 := by
  refine ⟨by decide, by decide, by decide, by decide, by decide, by decide⟩

/-- C5, amended: the cancel and create queues of the reconciler are each
sorted ascending by `|price − last| / last`; per tick at most
`max_n_cancellations_per_batch` cancellations and
`max_n_creations_per_batch` creations are dispatched; and
`BitgetBot.execute_cancellations`, when the list it is handed exceeds the
cap, keeps reduce-only cancellations in preference to non-reduce-only
ones — but per tick the reconciler truncates its distance-sorted queue to
the cap first, so that prioritization never applies to the tick's pending
cancellations (see the counterexample). -/
theorem C5_amended (st : Passivbot.BotState)
    (ideal_orders_f : String → List Passivbot.Order) (capC capR : ℕ) :
    ((Passivbot.calc_orders_to_cancel_and_create st ideal_orders_f).1.Pairwise
      (fun a b => Passivbot.cancel_sort_le st a b = true)) ∧
    ((Passivbot.calc_orders_to_cancel_and_create st ideal_orders_f).2.Pairwise
      (fun a b => Passivbot.cancel_sort_le st a b = true)) ∧
    (Passivbot.execute_to_exchange_cancels st ideal_orders_f capC).length ≤ capC ∧
    (Passivbot.execute_to_exchange_creates st ideal_orders_f capR).length ≤ capR ∧
    (∀ orders : List Passivbot.Order, orders.length > capC →
      ∀ x ∈ Passivbot.bitget_execute_cancellations capC orders,
        x.reduce_only = false →
      ∀ y ∈ orders, y.reduce_only = true →
        y ∈ Passivbot.bitget_execute_cancellations capC orders) := by
  have htot : ∀ a b, Passivbot.cancel_sort_le st a b = true ∨
      Passivbot.cancel_sort_le st b a = true := by
    intro a b
    unfold Passivbot.cancel_sort_le
    rcases le_total (Jitted.calc_diff a.price (st.tickers a.symbol).last)
      (Jitted.calc_diff b.price (st.tickers b.symbol).last) with h | h
    · exact Or.inl (by simpa using h)
    · exact Or.inr (by simpa using h)
  have htrans : ∀ a b c, Passivbot.cancel_sort_le st a b = true →
      Passivbot.cancel_sort_le st b c = true →
      Passivbot.cancel_sort_le st a c = true := by
    intro a b c hab hbc
    unfold Passivbot.cancel_sort_le at hab hbc ⊢
    simp only [decide_eq_true_eq] at hab hbc ⊢
    exact le_trans hab hbc
  refine ⟨?_, ?_, ?_, ?_, ?_⟩
  · exact Passivbot.sorted_stableSort _ htot htrans _
  · exact Passivbot.sorted_stableSort _ htot htrans _
  · unfold Passivbot.execute_to_exchange_cancels Passivbot.bitget_execute_cancellations
    exact List.length_take_le _ _
  · unfold Passivbot.execute_to_exchange_creates
    exact List.length_take_le _ _
  · intro orders hlen x hx hxro y hy hyro
    unfold Passivbot.bitget_execute_cancellations at hx ⊢
    rw [if_pos hlen] at hx ⊢
    rw [List.take_take, Nat.min_self] at hx ⊢
    have hro_lt : (orders.filter (fun o => o.reduce_only)).length < capC := by
      by_contra hge
      push_neg at hge
      rw [List.take_append_of_le_length hge] at hx
      have hxro' := (List.mem_filter.mp (List.mem_of_mem_take hx)).2
      rw [hxro] at hxro'
      simp at hxro'
    rw [List.take_append_eq_append_take,
      List.take_of_length_le (le_of_lt hro_lt)] at hx ⊢
    apply List.mem_append_left
    rw [List.mem_filter]
    exact ⟨hy, by rw [hyro]⟩

unseal Rat.add Rat.mul Rat.inv Rat.sub in
/-- C5 amended, witness: with cap 2 and three pending cancellations (two
non-reduce-only entries and one reduce-only close), the reduce-only close
is kept by `BitgetBot.execute_cancellations` although a non-reduce-only
entry is also kept. -/
theorem C5_amended_witness :
    ([⟨"A", "buy", "long", 1, 100, false, "e1"⟩,
      ⟨"A", "buy", "long", 2, 100, false, "e2"⟩,
      ⟨"A", "sell", "long", 1, 120, true, "r1"⟩] :
        List Passivbot.Order).length > 2 ∧
    (⟨"A", "sell", "long", 1, 120, true, "r1"⟩ : Passivbot.Order)
      ∈ Passivbot.bitget_execute_cancellations 2
        [⟨"A", "buy", "long", 1, 100, false, "e1"⟩,
         ⟨"A", "buy", "long", 2, 100, false, "e2"⟩,
         ⟨"A", "sell", "long", 1, 120, true, "r1"⟩] :=
  ⟨by decide,
    (C5_amended Passivbot.exRecState5 (fun _ => []) 2 2).2.2.2.2
      [⟨"A", "buy", "long", 1, 100, false, "e1"⟩,
       ⟨"A", "buy", "long", 2, 100, false, "e2"⟩,
       ⟨"A", "sell", "long", 1, 120, true, "r1"⟩]
      (by decide)
      ⟨"A", "buy", "long", 1, 100, false, "e1"⟩ (by decide) rfl
      ⟨"A", "sell", "long", 1, 120, true, "r1"⟩ (by decide) rfl⟩

unseal Rat.add Rat.mul Rat.inv Rat.sub in
/-- C6, counterexample.  With `execution_delay_seconds = 120`, a previous
tick that completed at `t = 300 ms` (during minute 0), and `now = 60001
ms` (minute 1), the active execution loop executes the tick although the
previous tick completed `59701 ms < 120000 ms` ago: the active loop fires
on every minute change and never consults `execution_delay_seconds`. -/
theorem C6_counterexample :
    Passivbot.run_execution_loop_executes 60001 0 = true ∧
    ((60001 : ℚ) - 300 < 120 * 1000) ∧
    Passivbot.execution_delay_millis 120 = 120000 := by
  refine ⟨by decide, by norm_num, ?_⟩
  unfold Passivbot.execution_delay_millis
  norm_num

/-- C6, amended: the legacy execution path (`execution_loop` /
`execute_to_exchange_old`) skips a tick whenever the previous tick
completed less than `execution_delay_seconds` ago (its guard uses
`max(3, execution_delay_seconds)` seconds); the active
`run_execution_loop` executes exactly on wall-clock minute changes,
without an execution-delay check. -/
theorem C6_amended :
    (∀ now prev eds : ℚ, now - prev < eds * 1000 →
      Passivbot.execute_to_exchange_old_skips now prev
        (Passivbot.execution_delay_millis eds) = true) ∧
    (∀ (now_ms : ℚ) (prev_minute : ℤ),
      Passivbot.run_execution_loop_executes now_ms prev_minute = true ↔
        ⌊now_ms / (1000 * 60)⌋ ≠ prev_minute) := by
  constructor
  · intro now prev eds h
    unfold Passivbot.execute_to_exchange_old_skips Passivbot.execution_delay_millis
    rw [decide_eq_true_eq]
    have hmax : eds * 1000 ≤ max 3000 (eds * 1000) := le_max_right _ _
    linarith
  · intro now_ms prev_minute
    unfold Passivbot.run_execution_loop_executes
    rw [bne_iff_ne]

/-- C6 amended, witness: `now = 60001`, previous completion `300`,
`execution_delay_seconds = 120`; the legacy guard skips. -/
theorem C6_amended_witness :
    ((60001 : ℚ) - 300 < 120 * 1000) ∧
    Passivbot.execute_to_exchange_old_skips 60001 300
      (Passivbot.execution_delay_millis 120) = true :=
  ⟨by norm_num, C6_amended.1 60001 300 120 (by norm_num)⟩

namespace Passivbot

theorem main_restart_step_keep_all (restarts : List ℚ) (t : ℚ)
    (h : ∀ r ∈ restarts, r > t - 1000 * 60 * 60 * 24) :
    (main_restart_step restarts t).1 = restarts ++ [t] := by
  unfold main_restart_step
  rw [List.filter_eq_self]
  intro a ha
  rcases List.mem_append.mp ha with ha | ha
  · exact decide_eq_true (h a ha)
  · rw [List.mem_singleton] at ha
    rw [ha]
    exact decide_eq_true (by norm_num)

theorem main_runs_bound (ts : List ℚ) : ∀ (restarts : List ℚ),
    ts.Pairwise (· ≤ ·) →
    (∀ x ∈ ts, ∀ y ∈ ts, x - y < 1000 * 60 * 60 * 24) →
    (∀ r ∈ restarts, ∀ t ∈ ts, r > t - 1000 * 60 * 60 * 24) →
    main_runs restarts ts ≤ max (6 - restarts.length) 1 := by
  induction ts with
  | nil =>
    intro restarts _ _ _
    unfold main_runs
    omega
  | cons t ts ih =>
    intro restarts hsorted hwin hr
    have hkeep := main_restart_step_keep_all restarts t
      (fun r hmem => hr r hmem t (List.mem_cons_self _ _))
    have hlen : (main_restart_step restarts t).1.length = restarts.length + 1 := by
      rw [hkeep]; simp
    unfold main_runs
    by_cases hbrk : (main_restart_step restarts t).2
    · rw [if_pos hbrk]; omega
    · rw [if_neg hbrk]
      have hcount : ¬ (5 < (main_restart_step restarts t).1.length) := by
        intro hgt
        apply hbrk
        unfold main_restart_step at hgt ⊢
        exact decide_eq_true hgt
      rw [hlen] at hcount
      have hrec : main_runs (main_restart_step restarts t).1 ts
          ≤ max (6 - (restarts.length + 1)) 1 := by
        rw [← hlen]
        apply ih
        · exact (List.pairwise_cons.mp hsorted).2
        · intro x hx y hy
          exact hwin x (List.mem_cons_of_mem _ hx) y (List.mem_cons_of_mem _ hy)
        · intro r hmem t2 ht2
          rw [hkeep] at hmem
          rcases List.mem_append.mp hmem with hmem | hmem
          · exact hr r hmem t2 (List.mem_cons_of_mem _ ht2)
          · rw [List.mem_singleton] at hmem
            rw [hmem]
            have := hwin t (List.mem_cons_self _ _) t2 (List.mem_cons_of_mem _ ht2)
            have h2 := hwin t2 (List.mem_cons_of_mem _ ht2) t (List.mem_cons_self _ _)
            linarith
      omega

end Passivbot

unseal Rat.add Rat.mul Rat.inv Rat.sub in
/-- C7, counterexample.  With 9 recorded errors in the trailing hour, the
10th error makes `restart_bot_on_too_many_errors` raise: the code checks
`len(error_counts) >= 10`, so the process aborts at exactly 10 errors in
the window, not only at more than 10 as claimed. -/
theorem C7_counterexample :
    (Passivbot.restart_bot_on_too_many_errors (List.replicate 9 0) 0).2 = true ∧
    (Passivbot.restart_bot_on_too_many_errors (List.replicate 9 0) 0).1.length
      = 10 := by
  refine ⟨by decide, by decide⟩

/-- C7, amended: the tick loop's error handler raises exactly when the
trailing-hour error count, including the error being recorded, reaches
10 (`>= max_n_errors_per_hour = 10`, i.e. on the 10th error, not only
beyond 10); and the `main` retry loop performs at most 6 bot runs —
1 initial run plus at most `max_n_restarts_per_day = 5` restarts — within
any 24-hour window before exiting. -/
theorem C7_amended :
    (∀ (error_counts : List ℚ) (now : ℚ),
      (Passivbot.restart_bot_on_too_many_errors error_counts now).2 = true ↔
        10 ≤ (error_counts.filter
          (fun x => decide (x > now - 1000 * 60 * 60))).length + 1) ∧
    (∀ ts : List ℚ, ts.Pairwise (· ≤ ·) →
      (∀ x ∈ ts, ∀ y ∈ ts, x - y < 1000 * 60 * 60 * 24) →
      Passivbot.main_runs [] ts ≤ 6) := by
  constructor
  · intro error_counts now
    unfold Passivbot.restart_bot_on_too_many_errors
    rw [decide_eq_true_eq]
    rw [List.length_append]
    simp
  · intro ts hsorted hwin
    have := Passivbot.main_runs_bound ts [] hsorted hwin (by intro r hmem; simp at hmem)
    simpa using this

unseal Rat.add Rat.mul Rat.inv Rat.sub in
/-- C7 amended, witness: seven bot runs all ending within the same
24-hour window; `main` performs at most 6 of them. -/
theorem C7_amended_witness :
    (List.replicate 7 (0:ℚ)).Pairwise (· ≤ ·) ∧
    (∀ x ∈ List.replicate 7 (0:ℚ), ∀ y ∈ List.replicate 7 (0:ℚ),
      x - y < 1000 * 60 * 60 * 24) ∧
    Passivbot.main_runs [] (List.replicate 7 (0:ℚ)) ≤ 6 :=
  ⟨by decide, by decide,
    C7_amended.2 (List.replicate 7 (0:ℚ)) (by decide) (by decide)⟩

namespace Passivbot

theorem alookup_append {β : Type} (l1 l2 : List (String × β)) (s : String) :
    alookup (l1 ++ l2) s =
      match alookup l1 s with
      | some v => some v
      | none => alookup l2 s := by
  induction l1 with
  | nil => simp [alookup]
  | cons p t ih =>
    obtain ⟨k, v⟩ := p
    have hL : alookup (((k, v) :: t) ++ l2) s
        = if k = s then some v else alookup (t ++ l2) s := rfl
    have hR : alookup ((k, v) :: t) s
        = if k = s then some v else alookup t s := rfl
    rw [hL, hR]
    split_ifs with hk
    · rfl
    · exact ih

theorem alookup_aupdate_self (l : List (String × List WsOrder)) (s : String)
    (o : WsOrder) (v : List WsOrder) (h : alookup l s = some v) :
    alookup (aupdate l s o) s = some (v ++ [o]) := by
  induction l with
  | nil => simp [alookup] at h
  | cons p t ih =>
    obtain ⟨k, w⟩ := p
    unfold alookup at h
    unfold aupdate
    split_ifs with hk
    · rw [if_pos hk] at h
      obtain rfl : w = v := by cases h; rfl
      unfold alookup
      rw [if_pos hk]
    · rw [if_neg hk] at h
      unfold alookup
      rw [if_neg hk]
      exact ih h

theorem alookup_aupdate_ne (l : List (String × List WsOrder)) (s s2 : String)
    (o : WsOrder) (h : s2 ≠ s) :
    alookup (aupdate l s o) s2 = alookup l s2 := by
  induction l with
  | nil => simp [aupdate]
  | cons p t ih =>
    obtain ⟨k, w⟩ := p
    unfold aupdate
    split_ifs with hk
    · unfold alookup
      rw [if_neg (by rw [hk]; exact fun hc => h hc.symm),
          if_neg (by rw [hk]; exact fun hc => h hc.symm)]
    · unfold alookup
      split_ifs with hk2
      · rfl
      · exact ih

end Passivbot

theorem aupdate_of_alookup_none (l : List (String × List Passivbot.WsOrder))
    (s : String) (o : Passivbot.WsOrder) (h : Passivbot.alookup l s = none) :
    Passivbot.aupdate l s o = l := by
  induction l with
  | nil => rfl
  | cons p t ih =>
    obtain ⟨k, v⟩ := p
    have hh : (if k = s then some v else Passivbot.alookup t s) = none := h
    unfold Passivbot.aupdate
    split_ifs with hk
    · rw [if_pos hk] at hh; cases hh
    · rw [if_neg hk] at hh
      rw [ih hh]

theorem add_new_order_go_nodup (store : List (String × List Passivbot.WsOrder))
    (order : Passivbot.WsOrder) (s oid : String)
    (hoid : order.order_id = some oid)
    (hstore_nd : ∀ s3 l3, Passivbot.alookup store s3 = some l3 →
      (l3.map Passivbot.WsOrder.order_id).Nodup) :
    ∀ s2 l2, Passivbot.alookup
        (Passivbot.add_new_order_go store order s oid).1 s2 = some l2 →
      (l2.map Passivbot.WsOrder.order_id).Nodup := by
  intro s2 l2 hl2
  unfold Passivbot.add_new_order_go at hl2
  split_ifs at hl2 with hany
  · exact hstore_nd s2 l2 hl2
  · by_cases hs2 : s2 = s
    · subst hs2
      cases hv : Passivbot.alookup store s2 with
      | none =>
        rw [aupdate_of_alookup_none _ _ _ hv] at hl2
        exact hstore_nd s2 l2 hl2
      | some v =>
        rw [Passivbot.alookup_aupdate_self _ _ _ _ hv] at hl2
        obtain rfl : v ++ [order] = l2 := by cases hl2; rfl
        have hvnd := hstore_nd s2 v hv
        rw [List.map_append, List.nodup_append]
        refine ⟨hvnd, by simp, ?_⟩
        intro a ha hb
        simp only [List.map_cons, List.map_nil, List.mem_singleton] at hb
        subst hb
        obtain ⟨x, hx, hxa⟩ := List.mem_map.mp ha
        rw [hv] at hany
        simp only [Option.getD_some] at hany
        apply hany
        rw [List.any_eq_true]
        refine ⟨x, hx, ?_⟩
        rw [hxa, hoid]
        simp
    · rw [Passivbot.alookup_aupdate_ne _ _ _ _ hs2] at hl2
      exact hstore_nd s2 l2 hl2

theorem ensure_key_nodup (open_orders : List (String × List Passivbot.WsOrder))
    (s : String)
    (hnd : ∀ s2 l2, Passivbot.alookup open_orders s2 = some l2 →
      (l2.map Passivbot.WsOrder.order_id).Nodup) :
    ∀ s3 l3, Passivbot.alookup
        (if Passivbot.alookup open_orders s = none
         then open_orders ++ [(s, [])] else open_orders) s3 = some l3 →
      (l3.map Passivbot.WsOrder.order_id).Nodup := by
  intro s3 l3 h3
  split_ifs at h3 with hnone
  · rw [Passivbot.alookup_append] at h3
    cases hlk : Passivbot.alookup open_orders s3 with
    | some v =>
      rw [hlk] at h3
      obtain rfl : v = l3 := by cases h3; rfl
      exact hnd s3 v hlk
    | none =>
      rw [hlk] at h3
      have h3v : (if s = s3 then some ([] : List Passivbot.WsOrder) else none)
          = some l3 := h3
      split_ifs at h3v with hks
      obtain rfl : ([] : List Passivbot.WsOrder) = l3 := by cases h3v; rfl
      simp
  · exact hnd s3 l3 h3

/-- C10.  (i) If an order with id `o["id"]` is already recorded under
`o["symbol"]`, `add_new_order` leaves the open-order store unchanged and
does not report a creation; (ii) consequently, if no symbol's open-order
list contains two orders with the same id, the same holds after any
`add_new_order` call. -/
theorem C10_add_new_order (open_orders : List (String × List Passivbot.WsOrder))
    (order : Passivbot.WsOrder) :
    (∀ s oid, order.symbol = some s → order.order_id = some oid →
      (∃ l, Passivbot.alookup open_orders s = some l ∧
        ∃ o ∈ l, o.order_id = some oid) →
      (Passivbot.add_new_order open_orders order).1 = open_orders ∧
      (Passivbot.add_new_order open_orders order).2 ≠ some true) ∧
    ((∀ s2 l2, Passivbot.alookup open_orders s2 = some l2 →
        (l2.map Passivbot.WsOrder.order_id).Nodup) →
      ∀ s2 l2, Passivbot.alookup
          (Passivbot.add_new_order open_orders order).1 s2 = some l2 →
        (l2.map Passivbot.WsOrder.order_id).Nodup) := by
  constructor
  · intro s oid hs hid hrec
    obtain ⟨l, hl, o, ho, hoid⟩ := hrec
    have hred : Passivbot.add_new_order open_orders order
        = Passivbot.add_new_order_go
            (if Passivbot.alookup open_orders s = none
             then open_orders ++ [(s, [])] else open_orders) order s oid := by
      unfold Passivbot.add_new_order
      rw [hid, hs]
    have hkey : ¬ (Passivbot.alookup open_orders s = none) := by rw [hl]; simp
    rw [hred, if_neg hkey]
    unfold Passivbot.add_new_order_go
    have hany : ((Passivbot.alookup open_orders s).getD []).any
        (fun x => x.order_id == some oid) = true := by
      rw [hl]
      simp only [Option.getD_some]
      rw [List.any_eq_true]
      exact ⟨o, ho, by rw [hoid]; simp⟩
    rw [if_pos hany]
    exact ⟨rfl, by simp⟩
  · intro hnd s2 l2 hl2
    cases hido : order.order_id with
    | none =>
      have hred : Passivbot.add_new_order open_orders order
          = (open_orders, some false) := by
        unfold Passivbot.add_new_order
        rw [hido]
      rw [hred] at hl2
      exact hnd s2 l2 hl2
    | some oid =>
      cases hsym : order.symbol with
      | none =>
        have hred : Passivbot.add_new_order open_orders order
            = (open_orders, some false) := by
          unfold Passivbot.add_new_order
          rw [hido, hsym]
        rw [hred] at hl2
        exact hnd s2 l2 hl2
      | some s =>
        have hred : Passivbot.add_new_order open_orders order
            = Passivbot.add_new_order_go
                (if Passivbot.alookup open_orders s = none
                 then open_orders ++ [(s, [])] else open_orders) order s oid := by
          unfold Passivbot.add_new_order
          rw [hido, hsym]
        rw [hred] at hl2
        exact add_new_order_go_nodup _ order s oid hido
          (ensure_key_nodup open_orders s hnd) s2 l2 hl2

unseal Rat.add Rat.mul Rat.inv Rat.sub in
/-- C10, witness: adding an order whose id `"1"` is already recorded
under symbol `"A"` leaves the store unchanged and does not report a
creation. -/
theorem C10_witness :
    (Passivbot.add_new_order
        [("A", [⟨some "1", some "A", "sell", "long", 1, 100⟩])]
        ⟨some "1", some "A", "buy", "long", 2, 99⟩).1
      = [("A", [⟨some "1", some "A", "sell", "long", 1, 100⟩])] ∧
    (Passivbot.add_new_order
        [("A", [⟨some "1", some "A", "sell", "long", 1, 100⟩])]
        ⟨some "1", some "A", "buy", "long", 2, 99⟩).2 ≠ some true :=
  (C10_add_new_order
      [("A", [⟨some "1", some "A", "sell", "long", 1, 100⟩])]
      ⟨some "1", some "A", "buy", "long", 2, 99⟩).1 "A" "1" rfl rfl
    ⟨[⟨some "1", some "A", "sell", "long", 1, 100⟩], by decide,
     ⟨⟨some "1", some "A", "sell", "long", 1, 100⟩, by decide, rfl⟩⟩
